import Mathlib

/-!
Verification of the 4D mesh extrusion core of `src/generator.py`.

The embedding models the pure computational core:
* `lift_nodes` — the node-lifting step of `extrude_to_4d` (lines 99-108):
  base layer `(x, y, z, w(x,y,z))` followed by top layer `(x, y, z, w(x,y,z)+d)`.
* `tetFaces` — face extraction for one tetrahedron (lines 126-132), each face
  `sorted` ascending.
* `uniqueFaces` — `np.unique(faces, axis=0)` (line 135): the distinct rows,
  in ascending lexicographic order.
* `connectFace` — the three connecting tetrahedra per unique face (lines 140-144).
* `extrude_to_4d` — the whole extrusion (lines 97-150).
* `export_tetrahedrons_4d` — the text export (lines 153-166); real coordinates
  are modelled as rationals and `f"{x:.6f}"` as exact rational rounding to six
  decimal places.
-/

namespace Gen4D

/-- A 3D node `(x, y, z)`; real coordinates modelled as rationals. -/
structure Node3 where
  x : ℚ
  y : ℚ
  z : ℚ
deriving DecidableEq

/-- A 4D node `(x, y, z, w)` as produced by the node-lifting step. -/
structure Node4 where
  x : ℚ
  y : ℚ
  z : ℚ
  w : ℚ
deriving DecidableEq

/-- A tetrahedron: an ordered quadruple of node indices (one row of `elements`). -/
structure Tet where
  a : ℕ
  b : ℕ
  c : ℕ
  d : ℕ
deriving DecidableEq

/-- A canonical face: an ordered triple of node indices. -/
abbrev Face := ℕ × ℕ × ℕ

/-- The three indices of a face as a list. -/
def faceList (f : Face) : List ℕ :=
  [f.1, f.2.1, f.2.2]

/-- Python's `sorted` applied to a 3-element list of indices
(`sorted([tet[i], tet[j], tet[k]])` in lines 128-131): the ascending
rearrangement of the three values. -/
def sort3 (x y z : ℕ) : Face :=
  if x ≤ y then
    if y ≤ z then (x, y, z)
    else if x ≤ z then (x, z, y)
    else (z, x, y)
  else
    if x ≤ z then (y, x, z)
    else if y ≤ z then (y, z, x)
    else (z, y, x)

/-- The four canonical faces of a tetrahedron (lines 127-132). -/
def tetFaces (t : Tet) : List Face :=
  [sort3 t.a t.b t.c, sort3 t.a t.b t.d, sort3 t.a t.c t.d, sort3 t.b t.c t.d]

/-- Lexicographic comparison of faces by (first, second, third) index,
the row order used by `np.unique(..., axis=0)`. -/
def faceLe (f g : Face) : Bool :=
  if f.1 < g.1 then true
  else if g.1 < f.1 then false
  else if f.2.1 < g.2.1 then true
  else if g.2.1 < f.2.1 then false
  else decide (f.2.2 ≤ g.2.2)

/-- `faceLe` as a relation, the row order of `np.unique`. -/
def FaceLE (f g : Face) : Prop :=
  faceLe f g = true

instance : DecidableRel FaceLE := fun f g => by
  unfold FaceLE; infer_instance

/-- `np.unique(faces, axis=0)` (line 135): the distinct faces of the input,
listed in ascending lexicographic row order (the sorted enumeration of the
distinct rows, which is what `np.unique` returns). -/
def uniqueFaces (fs : List Face) : List Face :=
  List.insertionSort FaceLE fs.dedup

/-- `elements + n` (line 119): shift every vertex index of a tetrahedron by `n`. -/
def shiftTet (n : ℕ) (t : Tet) : Tet :=
  ⟨t.a + n, t.b + n, t.c + n, t.d + n⟩

/-- The three connecting tetrahedra emitted for one unique face (lines 141-144):
`(i, j, k, i+n)`, `(i, j, k, j+n)`, `(i, j, k, k+n)`. -/
def connectFace (n : ℕ) (f : Face) : List Tet :=
  [⟨f.1, f.2.1, f.2.2, f.1 + n⟩,
   ⟨f.1, f.2.1, f.2.2, f.2.1 + n⟩,
   ⟨f.1, f.2.1, f.2.2, f.2.2 + n⟩]

/-- The node-lifting step (lines 103-108): the base layer
`(x, y, z, w(x,y,z))` in input order, followed by the top layer
`(x, y, z, w(x,y,z) + d)` in the same order. -/
def lift_nodes (nodes : List Node3) (w_coord_func : ℚ → ℚ → ℚ → ℚ)
    (extrusion_distance : ℚ) : List Node4 :=
  nodes.map (fun p => ⟨p.x, p.y, p.z, w_coord_func p.x p.y p.z⟩) ++
    nodes.map (fun p => ⟨p.x, p.y, p.z, w_coord_func p.x p.y p.z + extrusion_distance⟩)

/-- `extrude_to_4d` (lines 97-150): lifted 4D nodes, and the tetrahedron list
assembled as original elements, then elements shifted by `n`, then three
connecting tetrahedra for each unique face. -/
def extrude_to_4d (nodes : List Node3) (elements : List Tet)
    (extrusion_distance : ℚ) (w_coord_func : ℚ → ℚ → ℚ → ℚ) :
    List Node4 × List Tet :=
  let n := nodes.length
  let nodes_4d := lift_nodes nodes w_coord_func extrusion_distance
  let faces := uniqueFaces (elements.flatMap tetFaces)
  (nodes_4d,
    elements ++ elements.map (shiftTet n) ++ faces.flatMap (connectFace n))

/-- Left-pad a digit string with zeros to width six. -/
def pad6 (s : String) : String :=
  String.mk (List.replicate (6 - s.length) '0') ++ s

/-- `f"{q:.6f}"` modelled over the rationals: the value rounded to six decimal
places, printed with exactly six digits after the point. -/
def fmt6 (q : ℚ) : String :=
  let m : ℤ := round (q * 1000000)
  let sgn : String := if m < 0 then "-" else ""
  let am : ℕ := m.natAbs
  sgn ++ toString (am / 1000000) ++ "." ++ pad6 (toString (am % 1000000))

/-- One coordinate line `<x> <y> <z> <w>\n` of the export (line 161). -/
def nodeLine (p : Node4) : String :=
  fmt6 p.x ++ " " ++ fmt6 p.y ++ " " ++ fmt6 p.z ++ " " ++ fmt6 p.w ++ "\n"

/-- The block written for one tetrahedron (lines 158-162): its 1-based index,
the four vertex coordinate lines, and a blank line; `none` when a vertex index
is out of range (Python would raise `IndexError`). -/
def tetBlock (nodes_4d : List Node4) (idx : ℕ) (t : Tet) : Option String := do
  let p0 ← nodes_4d[t.a]?
  let p1 ← nodes_4d[t.b]?
  let p2 ← nodes_4d[t.c]?
  let p3 ← nodes_4d[t.d]?
  return toString idx ++ ":\n" ++ nodeLine p0 ++ nodeLine p1 ++ nodeLine p2 ++
    nodeLine p3 ++ "\n"

/-- The export loop from tetrahedron index `idx` on. -/
def exportFrom (nodes_4d : List Node4) (idx : ℕ) : List Tet → Option String
  | [] => some ""
  | t :: ts => do
    let blk ← tetBlock nodes_4d idx t
    let rest ← exportFrom nodes_4d (idx + 1) ts
    return blk ++ rest

/-- `export_tetrahedrons_4d` (lines 153-166): the full text written to the
output file, enumerating tetrahedra from 1. -/
def export_tetrahedrons_4d (nodes_4d : List Node4) (elements_4d : List Tet) :
    Option String :=
  exportFrom nodes_4d 1 elements_4d

/-- A tetrahedron is valid for a mesh of `N` nodes when its four indices are
pairwise distinct and in `[0, N)` (input contract, spec section 6). -/
def validTet (N : ℕ) (t : Tet) : Prop :=
  t.a < N ∧ t.b < N ∧ t.c < N ∧ t.d < N ∧
    t.a ≠ t.b ∧ t.a ≠ t.c ∧ t.a ≠ t.d ∧ t.b ≠ t.c ∧ t.b ≠ t.d ∧ t.c ≠ t.d

instance (N : ℕ) (t : Tet) : Decidable (validTet N t) := by
  unfold validTet; infer_instance

/-- A valid input mesh: every tetrahedron is valid for the node count. -/
def validMesh (nodes : List Node3) (elements : List Tet) : Prop :=
  ∀ t ∈ elements, validTet nodes.length t

instance (nodes : List Node3) (elements : List Tet) :
    Decidable (validMesh nodes elements) := by
  unfold validMesh; infer_instance

/-! ### Properties of `sort3` -/

/-- `sort3` returns an ascending rearrangement of its three arguments. -/
lemma sort3_spec (x y z : ℕ) :
    (sort3 x y z).1 ≤ (sort3 x y z).2.1 ∧ (sort3 x y z).2.1 ≤ (sort3 x y z).2.2 ∧
      (faceList (sort3 x y z)).Perm [x, y, z] := by
  unfold sort3 faceList
  split_ifs with h1 h2 h3 h4 h5 <;> dsimp only <;> refine ⟨by omega, by omega, ?_⟩
  · exact List.Perm.refl _
  · exact List.Perm.cons x (List.Perm.swap y z [])
  · exact (List.Perm.swap x z [y]).trans (List.Perm.cons x (List.Perm.swap y z []))
  · exact List.Perm.swap x y [z]
  · exact (List.Perm.cons y (List.Perm.swap x z [])).trans (List.Perm.swap x y [z])
  · exact (List.Perm.swap y z [x]).trans
      ((List.Perm.cons y (List.Perm.swap x z [])).trans (List.Perm.swap x y [z]))

lemma sort3_sorted (x y z : ℕ) :
    List.Sorted (· ≤ ·) (faceList (sort3 x y z)) := by
  obtain ⟨h1, h2, -⟩ := sort3_spec x y z
  simp [faceList, List.sorted_cons]
  omega

lemma sort3_perm (x y z : ℕ) : (faceList (sort3 x y z)).Perm [x, y, z] :=
  (sort3_spec x y z).2.2

/-- `sort3` depends only on the multiset of its arguments. -/
lemma sort3_eq_of_perm {x y z x' y' z' : ℕ} (h : [x, y, z].Perm [x', y', z']) :
    sort3 x y z = sort3 x' y' z' := by
  have he : faceList (sort3 x y z) = faceList (sort3 x' y' z') :=
    List.eq_of_perm_of_sorted
      ((sort3_perm x y z).trans (h.trans (sort3_perm x' y' z').symm))
      (sort3_sorted x y z) (sort3_sorted x' y' z')
  have h1 := congrArg (fun l => l.headI) he
  have h2 := congrArg (fun l => l.tail.headI) he
  have h3 := congrArg (fun l => l.tail.tail.headI) he
  simp [faceList] at h1 h2 h3
  exact Prod.ext h1 (Prod.ext h2 h3)

/-- On three pairwise distinct arguments below `n`, `sort3` yields a strictly
increasing triple below `n`. -/
lemma sort3_strict {x y z n : ℕ} (hx : x < n) (hy : y < n) (hz : z < n)
    (hxy : x ≠ y) (hxz : x ≠ z) (hyz : y ≠ z) :
    (sort3 x y z).1 < (sort3 x y z).2.1 ∧ (sort3 x y z).2.1 < (sort3 x y z).2.2 ∧
      (sort3 x y z).2.2 < n := by
  obtain ⟨h1, h2, hp⟩ := sort3_spec x y z
  have hnd : (faceList (sort3 x y z)).Nodup := by
    rw [hp.nodup_iff]
    simp [hxy, hxz, hyz]
  have hmem : ∀ u ∈ faceList (sort3 x y z), u < n := by
    intro u hu
    have := hp.mem_iff.mp hu
    simp at this
    rcases this with h | h | h <;> omega
  have hne12 : (sort3 x y z).1 ≠ (sort3 x y z).2.1 := by
    simp [faceList, List.nodup_cons] at hnd
    tauto
  have hne23 : (sort3 x y z).2.1 ≠ (sort3 x y z).2.2 := by
    simp [faceList, List.nodup_cons] at hnd
    tauto
  refine ⟨by omega, by omega, hmem _ ?_⟩
  simp [faceList]

/-- Every component of `sort3 x y z` is one of `x`, `y`, `z`. -/
lemma sort3_mem (x y z : ℕ) :
    ∀ u ∈ faceList (sort3 x y z), u = x ∨ u = y ∨ u = z := by
  intro u hu
  have := (sort3_perm x y z).mem_iff.mp hu
  simpa using this

/-! ### Properties of `faceLe` -/

lemma faceLe_iff (f g : Face) :
    faceLe f g = true ↔
      f.1 < g.1 ∨ (f.1 = g.1 ∧ (f.2.1 < g.2.1 ∨
        (f.2.1 = g.2.1 ∧ f.2.2 ≤ g.2.2))) := by
  unfold faceLe
  split_ifs with h1 h2 h3 h4 <;> simp <;> omega

lemma faceLe_trans (f g h : Face) (h1 : faceLe f g = true)
    (h2 : faceLe g h = true) : faceLe f h = true := by
  rw [faceLe_iff] at h1 h2 ⊢
  omega

lemma faceLe_total (f g : Face) : (faceLe f g || faceLe g f) = true := by
  by_cases h : faceLe f g = true
  · simp [h]
  · have h' : faceLe g f = true := by
      rw [faceLe_iff] at h ⊢
      omega
    simp [h']

lemma faceLe_antisymm (f g : Face) (h1 : faceLe f g = true)
    (h2 : faceLe g f = true) : f = g := by
  rw [faceLe_iff] at h1 h2
  obtain ⟨a, b, c⟩ := f
  obtain ⟨a', b', c'⟩ := g
  simp_all
  omega

instance : IsTotal Face FaceLE :=
  ⟨fun f g => by
    unfold FaceLE
    rcases Bool.or_eq_true_iff.mp (faceLe_total f g) with h | h
    · exact Or.inl h
    · exact Or.inr h⟩

instance : IsTrans Face FaceLE :=
  ⟨fun f g h h1 h2 => faceLe_trans f g h h1 h2⟩

instance : IsAntisymm Face FaceLE :=
  ⟨fun f g h1 h2 => faceLe_antisymm f g h1 h2⟩

/-! ### Properties of `uniqueFaces` -/

lemma uniqueFaces_perm (fs : List Face) : (uniqueFaces fs).Perm fs.dedup :=
  List.perm_insertionSort FaceLE fs.dedup

lemma uniqueFaces_nodup (fs : List Face) : (uniqueFaces fs).Nodup :=
  (uniqueFaces_perm fs).nodup_iff.mpr fs.nodup_dedup

lemma mem_uniqueFaces (fs : List Face) (f : Face) :
    f ∈ uniqueFaces fs ↔ f ∈ fs := by
  rw [(uniqueFaces_perm fs).mem_iff, List.mem_dedup]

lemma uniqueFaces_sorted (fs : List Face) :
    List.Pairwise FaceLE (uniqueFaces fs) :=
  List.sorted_insertionSort FaceLE fs.dedup

lemma uniqueFaces_length (fs : List Face) :
    (uniqueFaces fs).length = fs.dedup.length :=
  (uniqueFaces_perm fs).length_eq

/-- The length of the connecting block is three per unique face. -/
lemma length_flatMap_connectFace (n : ℕ) (fs : List Face) :
    (fs.flatMap (connectFace n)).length = 3 * fs.length := by
  induction fs with
  | nil => simp
  | cons f fs ih => simp [connectFace, ih] at ih ⊢; omega

/-! ### Example inputs (the spec's test scenarios) -/

/-- The four nodes of the spec's single-tetrahedron scenario. -/
def nodesEx : List Node3 :=
  [⟨0, 0, 0⟩, ⟨1, 0, 0⟩, ⟨0, 1, 0⟩, ⟨0, 0, 1⟩]

/-- The default height function `lambda x, y, z: 0.0`. -/
def wZero : ℚ → ℚ → ℚ → ℚ := fun _ _ _ => 0

/-! ### Claim theorems -/

/-- C1: for every input mesh with `T` tetrahedra, the extrusion output's
tetrahedron list has length exactly `2*T + 3*F`, where `F` is the number of
distinct canonical faces across all input tetrahedra. -/
theorem tets_count_C1 (nodes : List Node3) (elements : List Tet) (dist : ℚ)
    (wf : ℚ → ℚ → ℚ → ℚ) :
    (extrude_to_4d nodes elements dist wf).2.length =
      2 * elements.length + 3 * (elements.flatMap tetFaces).toFinset.card := by
  rw [List.card_toFinset, ← uniqueFaces_length]
  have h2 : (extrude_to_4d nodes elements dist wf).2 =
      elements ++ elements.map (shiftTet nodes.length) ++
        (uniqueFaces (elements.flatMap tetFaces)).flatMap
          (connectFace nodes.length) := rfl
  rw [h2, List.length_append, List.length_append, List.length_map,
    length_flatMap_connectFace]
  omega

/-- C2: the output node array has length `2n`; node `i` is the input node with
`w = w(x,y,z)` appended, node `i + n` the same with `w = w(x,y,z) + d`. -/
theorem lifted_nodes_C2 (nodes : List Node3) (elements : List Tet) (dist : ℚ)
    (wf : ℚ → ℚ → ℚ → ℚ) :
    (extrude_to_4d nodes elements dist wf).1.length = 2 * nodes.length ∧
    ∀ i : ℕ, ∀ h : i < nodes.length,
      (extrude_to_4d nodes elements dist wf).1[i]? =
        some ⟨(nodes.get ⟨i, h⟩).x, (nodes.get ⟨i, h⟩).y, (nodes.get ⟨i, h⟩).z,
          wf (nodes.get ⟨i, h⟩).x (nodes.get ⟨i, h⟩).y (nodes.get ⟨i, h⟩).z⟩ ∧
      (extrude_to_4d nodes elements dist wf).1[i + nodes.length]? =
        some ⟨(nodes.get ⟨i, h⟩).x, (nodes.get ⟨i, h⟩).y, (nodes.get ⟨i, h⟩).z,
          wf (nodes.get ⟨i, h⟩).x (nodes.get ⟨i, h⟩).y (nodes.get ⟨i, h⟩).z + dist⟩ := by
  have hfst : (extrude_to_4d nodes elements dist wf).1 =
      nodes.map (fun p => (⟨p.x, p.y, p.z, wf p.x p.y p.z⟩ : Node4)) ++
        nodes.map (fun p => (⟨p.x, p.y, p.z, wf p.x p.y p.z + dist⟩ : Node4)) := rfl
  constructor
  · rw [hfst]
    simp only [List.length_append, List.length_map]
    omega
  · intro i h
    constructor
    · rw [hfst, List.getElem?_append]
      rw [if_pos (by simpa using h)]
      rw [List.getElem?_map, List.getElem?_eq_getElem h]
      simp
    · rw [hfst, List.getElem?_append]
      rw [if_neg (by simp only [List.length_map]; omega)]
      simp only [List.length_map, Nat.add_sub_cancel]
      rw [List.getElem?_map, List.getElem?_eq_getElem h]
      simp

theorem lifted_nodes_C2_witness :
    (0 : ℕ) < nodesEx.length ∧
    (extrude_to_4d nodesEx [⟨0, 1, 2, 3⟩] 1 wZero).1[(0 : ℕ)]? =
      some ⟨0, 0, 0, 0⟩ ∧
    (extrude_to_4d nodesEx [⟨0, 1, 2, 3⟩] 1 wZero).1[0 + nodesEx.length]? =
      some ⟨0, 0, 0, 1⟩ := by
  have h : (0 : ℕ) < nodesEx.length := by decide
  have h2 := (lifted_nodes_C2 nodesEx [⟨0, 1, 2, 3⟩] 1 wZero).2 0 h
  refine ⟨h, ?_, ?_⟩
  · simpa [nodesEx, wZero] using h2.1
  · simpa [nodesEx, wZero] using h2.2

/-- C3: face extraction on a tetrahedron `(a,b,c,d)` yields exactly its four
3-combinations, each sorted ascending; `sort3` is an ascending rearrangement
of its arguments and depends only on the vertex set (multiset). -/
theorem face_extraction_C3 (t : Tet) :
    (tetFaces t).length = 4 ∧
    tetFaces t =
      [sort3 t.a t.b t.c, sort3 t.a t.b t.d, sort3 t.a t.c t.d,
        sort3 t.b t.c t.d] ∧
    (∀ x y z : ℕ, List.Sorted (· ≤ ·) (faceList (sort3 x y z)) ∧
      (faceList (sort3 x y z)).Perm [x, y, z]) ∧
    (∀ x y z x' y' z' : ℕ,
      [x, y, z].Perm [x', y', z'] → sort3 x y z = sort3 x' y' z') :=
  ⟨rfl, rfl, fun x y z => ⟨sort3_sorted x y z, sort3_perm x y z⟩,
    fun _ _ _ _ _ _ h => sort3_eq_of_perm h⟩

theorem face_extraction_C3_witness :
    ([(2 : ℕ), 0, 3].Perm [0, 3, 2]) ∧ sort3 2 0 3 = sort3 0 3 2 := by
  have h : [(2 : ℕ), 0, 3].Perm [0, 3, 2] := by decide
  exact ⟨h, (face_extraction_C3 ⟨0, 1, 2, 3⟩).2.2.2 2 0 3 0 3 2 h⟩

/-- C4: face deduplication keeps each distinct canonical face exactly once and
hands the unique faces to prism decomposition sorted lexicographically by
(first, second, third) index. -/
theorem face_dedup_C4 (elements : List Tet) :
    (uniqueFaces (elements.flatMap tetFaces)).Nodup ∧
    (∀ f : Face,
      f ∈ uniqueFaces (elements.flatMap tetFaces) ↔
        f ∈ elements.flatMap tetFaces) ∧
    (∀ f ∈ elements.flatMap tetFaces,
      Multiset.count f (uniqueFaces (elements.flatMap tetFaces) : Multiset Face)
        = 1) ∧
    List.Pairwise
      (fun f g : Face => f.1 < g.1 ∨ (f.1 = g.1 ∧ (f.2.1 < g.2.1 ∨
        (f.2.1 = g.2.1 ∧ f.2.2 ≤ g.2.2))))
      (uniqueFaces (elements.flatMap tetFaces)) := by
  refine ⟨uniqueFaces_nodup _, fun f => mem_uniqueFaces _ f, ?_, ?_⟩
  · intro f hf
    exact Multiset.count_eq_one_of_mem
      (Multiset.coe_nodup.mpr (uniqueFaces_nodup _))
      (Multiset.mem_coe.mpr ((mem_uniqueFaces _ f).mpr hf))
  · exact (uniqueFaces_sorted _).imp (fun h => (faceLe_iff _ _).mp h)

theorem face_dedup_C4_witness :
    ((0, 1, 2) : Face) ∈ [(⟨0, 1, 2, 3⟩ : Tet), ⟨0, 1, 2, 4⟩].flatMap tetFaces ∧
    Multiset.count ((0, 1, 2) : Face)
      (uniqueFaces
        ([(⟨0, 1, 2, 3⟩ : Tet), ⟨0, 1, 2, 4⟩].flatMap tetFaces) : Multiset Face)
      = 1 := by
  have h : ((0, 1, 2) : Face) ∈
      [(⟨0, 1, 2, 3⟩ : Tet), ⟨0, 1, 2, 4⟩].flatMap tetFaces := by decide
  exact ⟨h, (face_dedup_C4 [⟨0, 1, 2, 3⟩, ⟨0, 1, 2, 4⟩]).2.2.1 (0, 1, 2) h⟩

/-- C5: prism decomposition emits, for a face `(i,j,k)` and layer offset `n`,
exactly the three tetrahedra `(i,j,k,i+n)`, `(i,j,k,j+n)`, `(i,j,k,k+n)` in
this order, and the connecting block of the output is exactly this
decomposition applied to every unique face — no other variant is used. -/
theorem prism_decomposition_C5 (n i j k : ℕ) :
    connectFace n (i, j, k) =
      [⟨i, j, k, i + n⟩, ⟨i, j, k, j + n⟩, ⟨i, j, k, k + n⟩] ∧
    (connectFace n (i, j, k)).length = 3 ∧
    ∀ (nodes : List Node3) (elements : List Tet) (dist : ℚ)
      (wf : ℚ → ℚ → ℚ → ℚ),
      (extrude_to_4d nodes elements dist wf).2.drop (2 * elements.length) =
        (uniqueFaces (elements.flatMap tetFaces)).flatMap
          (connectFace nodes.length) := by
  refine ⟨rfl, rfl, ?_⟩
  intro nodes elements dist wf
  have h2 : (extrude_to_4d nodes elements dist wf).2 =
      elements ++ elements.map (shiftTet nodes.length) ++
        (uniqueFaces (elements.flatMap tetFaces)).flatMap
          (connectFace nodes.length) := rfl
  rw [h2, List.drop_left' (by simp [Nat.two_mul])]

/-- C6: the assembled tetrahedron list is, in this order: the original `T`
input tetrahedra unchanged, then the same `T` tetrahedra with every index
shifted by `+n`, then the `3F` connecting tetrahedra. -/
theorem assembly_order_C6 (nodes : List Node3) (elements : List Tet)
    (dist : ℚ) (wf : ℚ → ℚ → ℚ → ℚ) :
    (extrude_to_4d nodes elements dist wf).2.take elements.length =
      elements ∧
    ((extrude_to_4d nodes elements dist wf).2.drop elements.length).take
        elements.length = elements.map (shiftTet nodes.length) ∧
    (extrude_to_4d nodes elements dist wf).2.drop (2 * elements.length) =
      (uniqueFaces (elements.flatMap tetFaces)).flatMap
        (connectFace nodes.length) ∧
    ∀ t : Tet, shiftTet nodes.length t =
      ⟨t.a + nodes.length, t.b + nodes.length, t.c + nodes.length,
        t.d + nodes.length⟩ := by
  have h2 : (extrude_to_4d nodes elements dist wf).2 =
      elements ++ elements.map (shiftTet nodes.length) ++
        (uniqueFaces (elements.flatMap tetFaces)).flatMap
          (connectFace nodes.length) := rfl
  refine ⟨?_, ?_, ?_, fun t => rfl⟩
  · rw [h2, List.append_assoc, List.take_left' rfl]
  · rw [h2, List.append_assoc, List.drop_left' rfl,
      List.take_left' (by simp)]
  · rw [h2, List.drop_left' (by simp [Nat.two_mul])]

/-- Every face of a tetrahedron that is valid for `n` nodes is a strictly
increasing triple of indices below `n`. -/
lemma face_of_valid {n : ℕ} {s : Tet} (hs : validTet n s) {f : Face}
    (hf : f ∈ tetFaces s) :
    f.1 < f.2.1 ∧ f.2.1 < f.2.2 ∧ f.2.2 < n := by
  obtain ⟨ha, hb, hc, hd, hab, hac, had, hbc, hbd, hcd⟩ := hs
  simp [tetFaces] at hf
  rcases hf with h | h | h | h <;> subst h
  · exact sort3_strict ha hb hc hab hac hbc
  · exact sort3_strict ha hb hd hab had hbd
  · exact sort3_strict ha hc hd hac had hcd
  · exact sort3_strict hb hc hd hbc hbd hcd

/-- C7: the code has no check on the extrusion distance: at distance 0 the
extrusion completes normally (here on the spec's single-tetrahedron scenario,
returning all 14 tetrahedra) and the top node layer coincides with the base
layer, instead of failing with `InvalidParameter`. -/
theorem distance_zero_no_failure_C7 :
    (extrude_to_4d nodesEx [⟨0, 1, 2, 3⟩] 0 wZero).1.take nodesEx.length =
      (extrude_to_4d nodesEx [⟨0, 1, 2, 3⟩] 0 wZero).1.drop nodesEx.length ∧
    (extrude_to_4d nodesEx [⟨0, 1, 2, 3⟩] 0 wZero).2.length = 14 := by
  constructor
  · have h : (extrude_to_4d nodesEx [⟨0, 1, 2, 3⟩] 0 wZero).1 =
        nodesEx.map
          (fun p => (⟨p.x, p.y, p.z, wZero p.x p.y p.z⟩ : Node4)) ++
        nodesEx.map
          (fun p => (⟨p.x, p.y, p.z, wZero p.x p.y p.z + 0⟩ : Node4)) := rfl
    rw [h, List.take_left' (by simp), List.drop_left' (by simp)]
    simp [wZero]
  · rfl

/-- C8: on a valid input mesh, every tetrahedron of the output — original,
shifted, or connecting — has four pairwise distinct vertex indices. -/
theorem output_distinct_C8 (nodes : List Node3) (elements : List Tet)
    (dist : ℚ) (wf : ℚ → ℚ → ℚ → ℚ) (hv : validMesh nodes elements) :
    ∀ t ∈ (extrude_to_4d nodes elements dist wf).2,
      t.a ≠ t.b ∧ t.a ≠ t.c ∧ t.a ≠ t.d ∧ t.b ≠ t.c ∧ t.b ≠ t.d ∧
        t.c ≠ t.d := by
  intro t ht
  have h2 : (extrude_to_4d nodes elements dist wf).2 =
      elements ++ elements.map (shiftTet nodes.length) ++
        (uniqueFaces (elements.flatMap tetFaces)).flatMap
          (connectFace nodes.length) := rfl
  rw [h2] at ht
  simp only [List.mem_append] at ht
  rcases ht with (ht | ht) | ht
  · have hvt := hv t ht
    unfold validTet at hvt
    tauto
  · rw [List.mem_map] at ht
    obtain ⟨s, hs, rfl⟩ := ht
    have hvs := hv s hs
    unfold validTet at hvs
    unfold shiftTet
    simp only [ne_eq]
    omega
  · rw [List.mem_flatMap] at ht
    obtain ⟨f, hfm, htf⟩ := ht
    rw [mem_uniqueFaces, List.mem_flatMap] at hfm
    obtain ⟨s, hsm, hfs⟩ := hfm
    obtain ⟨hf1, hf2, hf3⟩ := face_of_valid (hv s hsm) hfs
    simp [connectFace] at htf
    rcases htf with rfl | rfl | rfl <;> simp only [ne_eq] <;> omega

theorem output_distinct_C8_witness :
    validMesh nodesEx [⟨0, 1, 2, 3⟩] ∧
    ((⟨0, 1, 2, 3⟩ : Tet) ∈
      (extrude_to_4d nodesEx [⟨0, 1, 2, 3⟩] 1 wZero).2) ∧
    ((⟨0, 1, 2, 3⟩ : Tet).a ≠ (⟨0, 1, 2, 3⟩ : Tet).b ∧
      (⟨0, 1, 2, 3⟩ : Tet).a ≠ (⟨0, 1, 2, 3⟩ : Tet).c ∧
      (⟨0, 1, 2, 3⟩ : Tet).a ≠ (⟨0, 1, 2, 3⟩ : Tet).d ∧
      (⟨0, 1, 2, 3⟩ : Tet).b ≠ (⟨0, 1, 2, 3⟩ : Tet).c ∧
      (⟨0, 1, 2, 3⟩ : Tet).b ≠ (⟨0, 1, 2, 3⟩ : Tet).d ∧
      (⟨0, 1, 2, 3⟩ : Tet).c ≠ (⟨0, 1, 2, 3⟩ : Tet).d) := by
  have hv : validMesh nodesEx [⟨0, 1, 2, 3⟩] := by decide
  have hm : (⟨0, 1, 2, 3⟩ : Tet) ∈
      (extrude_to_4d nodesEx [⟨0, 1, 2, 3⟩] 1 wZero).2 := by decide
  exact ⟨hv, hm, output_distinct_C8 nodesEx [⟨0, 1, 2, 3⟩] 1 wZero hv _ hm⟩

/-- C9: extrusion and export are deterministic — identical inputs produce
identical 4D node and tetrahedron arrays and identical export text. -/
theorem deterministic_C9 (nodes1 nodes2 : List Node3) (el1 el2 : List Tet)
    (d1 d2 : ℚ) (w1 w2 : ℚ → ℚ → ℚ → ℚ)
    (hn : nodes1 = nodes2) (he : el1 = el2) (hd : d1 = d2) (hw : w1 = w2) :
    extrude_to_4d nodes1 el1 d1 w1 = extrude_to_4d nodes2 el2 d2 w2 ∧
    export_tetrahedrons_4d (extrude_to_4d nodes1 el1 d1 w1).1
        (extrude_to_4d nodes1 el1 d1 w1).2 =
      export_tetrahedrons_4d (extrude_to_4d nodes2 el2 d2 w2).1
        (extrude_to_4d nodes2 el2 d2 w2).2 := by
  subst hn
  subst he
  subst hd
  subst hw
  exact ⟨rfl, rfl⟩

theorem deterministic_C9_witness :
    nodesEx = nodesEx ∧
    extrude_to_4d nodesEx [⟨0, 1, 2, 3⟩] 1 wZero =
      extrude_to_4d nodesEx [⟨0, 1, 2, 3⟩] 1 wZero ∧
    export_tetrahedrons_4d (extrude_to_4d nodesEx [⟨0, 1, 2, 3⟩] 1 wZero).1
        (extrude_to_4d nodesEx [⟨0, 1, 2, 3⟩] 1 wZero).2 =
      export_tetrahedrons_4d (extrude_to_4d nodesEx [⟨0, 1, 2, 3⟩] 1 wZero).1
        (extrude_to_4d nodesEx [⟨0, 1, 2, 3⟩] 1 wZero).2 :=
  ⟨rfl,
    (deterministic_C9 nodesEx nodesEx [⟨0, 1, 2, 3⟩] [⟨0, 1, 2, 3⟩] 1 1 wZero
      wZero rfl rfl rfl rfl).1,
    (deterministic_C9 nodesEx nodesEx [⟨0, 1, 2, 3⟩] [⟨0, 1, 2, 3⟩] 1 1 wZero
      wZero rfl rfl rfl rfl).2⟩

/-- C10: on a valid input mesh, every connecting tetrahedron has its first
three indices in `[0, n)` and its fourth in `[n, 2n)`; every index of every
output tetrahedron is below `2n`. -/
theorem connecting_layers_C10 (nodes : List Node3) (elements : List Tet)
    (dist : ℚ) (wf : ℚ → ℚ → ℚ → ℚ) (hv : validMesh nodes elements) :
    (∀ t ∈ (extrude_to_4d nodes elements dist wf).2.drop
        (2 * elements.length),
      t.a < nodes.length ∧ t.b < nodes.length ∧ t.c < nodes.length ∧
        nodes.length ≤ t.d ∧ t.d < 2 * nodes.length) ∧
    ∀ t ∈ (extrude_to_4d nodes elements dist wf).2,
      t.a < 2 * nodes.length ∧ t.b < 2 * nodes.length ∧
        t.c < 2 * nodes.length ∧ t.d < 2 * nodes.length := by
  have h2 : (extrude_to_4d nodes elements dist wf).2 =
      elements ++ elements.map (shiftTet nodes.length) ++
        (uniqueFaces (elements.flatMap tetFaces)).flatMap
          (connectFace nodes.length) := rfl
  have hconn : ∀ t ∈ (uniqueFaces (elements.flatMap tetFaces)).flatMap
      (connectFace nodes.length),
      t.a < nodes.length ∧ t.b < nodes.length ∧ t.c < nodes.length ∧
        nodes.length ≤ t.d ∧ t.d < 2 * nodes.length := by
    intro t ht
    rw [List.mem_flatMap] at ht
    obtain ⟨f, hfm, htf⟩ := ht
    rw [mem_uniqueFaces, List.mem_flatMap] at hfm
    obtain ⟨s, hsm, hfs⟩ := hfm
    obtain ⟨hf1, hf2, hf3⟩ := face_of_valid (hv s hsm) hfs
    simp [connectFace] at htf
    rcases htf with rfl | rfl | rfl <;> simp only [] <;> omega
  constructor
  · rw [h2, List.drop_left' (by simp [Nat.two_mul])]
    exact hconn
  · intro t ht
    rw [h2] at ht
    simp only [List.mem_append] at ht
    rcases ht with (ht | ht) | ht
    · have hvt := hv t ht
      unfold validTet at hvt
      omega
    · rw [List.mem_map] at ht
      obtain ⟨s, hs, rfl⟩ := ht
      have hvs := hv s hs
      unfold validTet at hvs
      unfold shiftTet
      simp only []
      omega
    · have := hconn t ht
      omega

theorem connecting_layers_C10_witness :
    validMesh nodesEx [⟨0, 1, 2, 3⟩] ∧
    ((⟨0, 1, 2, 4⟩ : Tet) ∈
      (extrude_to_4d nodesEx [⟨0, 1, 2, 3⟩] 1 wZero).2.drop
        (2 * [(⟨0, 1, 2, 3⟩ : Tet)].length)) ∧
    ((⟨0, 1, 2, 4⟩ : Tet).a < nodesEx.length ∧
      (⟨0, 1, 2, 4⟩ : Tet).b < nodesEx.length ∧
      (⟨0, 1, 2, 4⟩ : Tet).c < nodesEx.length ∧
      nodesEx.length ≤ (⟨0, 1, 2, 4⟩ : Tet).d ∧
      (⟨0, 1, 2, 4⟩ : Tet).d < 2 * nodesEx.length) := by
  have hv : validMesh nodesEx [⟨0, 1, 2, 3⟩] := by decide
  have hm : (⟨0, 1, 2, 4⟩ : Tet) ∈
      (extrude_to_4d nodesEx [⟨0, 1, 2, 3⟩] 1 wZero).2.drop
        (2 * [(⟨0, 1, 2, 3⟩ : Tet)].length) := by decide
  exact ⟨hv, hm,
    (connecting_layers_C10 nodesEx [⟨0, 1, 2, 3⟩] 1 wZero hv).1 _ hm⟩

end Gen4D
